import Mathlib

/-!
Verification development for the VolGuard trading control plane.

The Python sources are embedded shallowly: prices, percentages and weights
become rationals, machine-level quantities become naturals, broker I/O
becomes explicit environment parameters (poll traces, fill flags), and
every function is a computable Lean definition mirroring the control flow
of its Python counterpart.
-/

namespace Volguard

/-! ## Configuration constants (src/config.py, class Config) -/

namespace Config

def BASE_CAPITAL : ℚ := 1000000
def MARGIN_SELL_BASE : ℚ := 125000
def MAX_CAPITAL_USAGE : ℚ := 4/5
def MAX_LOSS_PER_TRADE : ℚ := 50000
def MAX_CAPITAL_PER_TRADE : ℚ := 300000
def MAX_TRADES_PER_DAY : ℕ := 3
def MAX_DRAWDOWN_PCT : ℚ := 3/20
def MAX_CONTRACTS_PER_INSTRUMENT : ℕ := 1800

def HIGH_VOL_IVP : ℚ := 75
def LOW_VOL_IVP : ℚ := 25
def VOV_CRASH_ZSCORE : ℚ := 5/2
def VOV_WARNING_ZSCORE : ℚ := 2

def GAMMA_DANGER_DTE : ℤ := 1
def FII_STRONG_LONG : ℚ := 50000
def FII_STRONG_SHORT : ℚ := -50000
def FII_MODERATE : ℚ := 20000

def WEIGHT_VOL : ℚ := 2/5
def WEIGHT_STRUCT : ℚ := 3/10
def WEIGHT_EDGE : ℚ := 1/5
def WEIGHT_RISK : ℚ := 1/10

def SLIPPAGE_TOLERANCE : ℚ := 1/50
def PARTIAL_FILL_TOLERANCE : ℚ := 19/20
def HEDGE_FILL_TOLERANCE : ℚ := 49/50

def MAX_CONSECUTIVE_LOSSES : ℕ := 3
def COOL_DOWN_PERIOD : ℕ := 86400
def MAX_SLIPPAGE_EVENTS_PER_DAY : ℕ := 5
def DAILY_LOSS_LIMIT : ℚ := 3/100

end Config

/-! ## Regime engine (src/core/regime.py, class RegimeEngine)

`calculate_dynamic_weights` mutates four weight variables through a
sequence of guarded adjustments and then renormalizes.  We embed it as a
pipeline of stages over the quadruple `(vol, struct, edge, risk)`, each
stage matching one block of the Python function.
-/

inductive VixMomentum
  | EXPLOSIVE_UP | RISING | FALLING | COLLAPSING | NEUTRAL
deriving DecidableEq, Repr

inductive GexRegime
  | STICKY | SLIPPERY | UNKNOWN
deriving DecidableEq, Repr

structure DynamicWeights where
  vol_weight : ℚ
  struct_weight : ℚ
  edge_weight : ℚ
  risk_weight : ℚ
deriving DecidableEq, Repr

abbrev WQuad := ℚ × ℚ × ℚ × ℚ

/-- Base-weight selection: the first `if/elif` chain of
`calculate_dynamic_weights` (extreme volatility, then IV percentile). -/
def baseWeights (vov_zscore ivp_1yr : ℚ) : WQuad :=
  if vov_zscore > Config.VOV_CRASH_ZSCORE then (1/2, 1/4, 3/20, 1/10)
  else if vov_zscore > Config.VOV_WARNING_ZSCORE then (9/20, 7/25, 17/100, 1/10)
  else if ivp_1yr > Config.HIGH_VOL_IVP then (7/20, 7/20, 1/5, 1/10)
  else if ivp_1yr < Config.LOW_VOL_IVP then (3/10, 3/10, 3/10, 1/10)
  else (Config.WEIGHT_VOL, Config.WEIGHT_STRUCT, Config.WEIGHT_EDGE, Config.WEIGHT_RISK)

/-- VIX-momentum adjustment block. -/
def adjMomentum (m : VixMomentum) : WQuad → WQuad
  | (v, s, e, r) =>
    match m with
    | .EXPLOSIVE_UP => (v + 1/20, s, e - 1/20, r)
    | .COLLAPSING => (v - 1/20, s, e + 1/20, r)
    | _ => (v, s, e, r)

/-- GEX structure-regime adjustment block. -/
def adjGex (g : GexRegime) : WQuad → WQuad
  | (v, s, e, r) =>
    match g with
    | .STICKY => (v - 1/20, s + 1/20, e, r)
    | .SLIPPERY => (v + 1/20, s - 1/20, e, r)
    | .UNKNOWN => (v, s, e, r)

/-- Gamma-danger (DTE) adjustment block. -/
def adjDte (dte : ℤ) : WQuad → WQuad
  | (v, s, e, r) =>
    if dte ≤ Config.GAMMA_DANGER_DTE then (v, s + 1/10, e - 1/20, r - 1/20)
    else (v, s, e, r)

/-- FII-positioning adjustment block. -/
def adjFii (fii_net : ℚ) : WQuad → WQuad
  | (v, s, e, r) =>
    if |fii_net| > Config.FII_STRONG_LONG then (v, s, e - 1/20, r + 1/20)
    else (v, s, e, r)

/-- Final normalization guard of `calculate_dynamic_weights`: divide by the
total only when it drifted more than 0.01 from 1. -/
def normalizeWeights : WQuad → WQuad
  | (v, s, e, r) =>
    let total := v + s + e + r
    if |total - 1| > 1/100 then (v / total, s / total, e / total, r / total)
    else (v, s, e, r)

/-- `RegimeEngine.calculate_dynamic_weights` over the metric fields it
actually reads: VoV z-score, 1-year IV percentile, VIX momentum class,
GEX regime, DTE and FII net positioning. -/
def calculate_dynamic_weights (vov_zscore ivp_1yr : ℚ) (m : VixMomentum)
    (g : GexRegime) (dte : ℤ) (fii_net : ℚ) : DynamicWeights :=
  let w :=
    normalizeWeights (adjFii fii_net (adjDte dte (adjGex g
      (adjMomentum m (baseWeights vov_zscore ivp_1yr)))))
  ⟨w.1, w.2.1, w.2.2.1, w.2.2.2⟩

def wsum : WQuad → ℚ
  | (v, s, e, r) => v + s + e + r

lemma baseWeights_sum (vov ivp : ℚ) : wsum (baseWeights vov ivp) = 1 := by
  unfold baseWeights wsum
  split_ifs <;> norm_num [Config.WEIGHT_VOL, Config.WEIGHT_STRUCT,
    Config.WEIGHT_EDGE, Config.WEIGHT_RISK]

lemma adjMomentum_sum (m : VixMomentum) (w : WQuad) :
    wsum (adjMomentum m w) = wsum w := by
  obtain ⟨v, s, e, r⟩ := w
  cases m <;> simp [adjMomentum, wsum] <;> ring

lemma adjGex_sum (g : GexRegime) (w : WQuad) :
    wsum (adjGex g w) = wsum w := by
  obtain ⟨v, s, e, r⟩ := w
  cases g <;> simp [adjGex, wsum] <;> ring

lemma adjDte_sum (dte : ℤ) (w : WQuad) : wsum (adjDte dte w) = wsum w := by
  obtain ⟨v, s, e, r⟩ := w
  simp only [adjDte]
  split_ifs <;> simp [wsum] <;> ring

lemma adjFii_sum (fii : ℚ) (w : WQuad) : wsum (adjFii fii w) = wsum w := by
  obtain ⟨v, s, e, r⟩ := w
  simp only [adjFii]
  split_ifs <;> simp [wsum] <;> ring

lemma normalizeWeights_of_sum_one (w : WQuad) (h : wsum w = 1) :
    normalizeWeights w = w := by
  obtain ⟨v, s, e, r⟩ := w
  simp only [wsum] at h
  simp [normalizeWeights, h]

/-! ## Sub-scoring (`RegimeEngine.calculate_scores`, vol component)

The vol sub-score starts at 5 and is mutated through the VoV chain, the
IVP chain, the VIX-momentum chain and the GARCH comparison, then clamped
to [0, 10]. -/

/-- VoV chain of the vol sub-score (starting value 5, possibly zeroed). -/
def volStageVov (vov_zscore : ℚ) : ℚ :=
  if vov_zscore > Config.VOV_CRASH_ZSCORE then 0
  else if vov_zscore > Config.VOV_WARNING_ZSCORE then 5 - 3
  else if vov_zscore < 3/2 then 5 + 3/2
  else 5

/-- IV-percentile chain of the vol sub-score. -/
def volStageIvp (ivp_1yr : ℚ) (m : VixMomentum) (s : ℚ) : ℚ :=
  if ivp_1yr > Config.HIGH_VOL_IVP then
    match m with
    | .FALLING => s + 3/2
    | .RISING => s - 1
    | _ => s + 1/2
  else if ivp_1yr < Config.LOW_VOL_IVP then s - 5/2
  else s + 1

/-- VIX-momentum chain of the vol sub-score. -/
def volStageMomentum (m : VixMomentum) (s : ℚ) : ℚ :=
  match m with
  | .EXPLOSIVE_UP => s - 2
  | .COLLAPSING => s + 1
  | _ => s

/-- GARCH-vs-realized comparison of the vol sub-score. -/
def volStageGarch (garch28 rv28 s : ℚ) : ℚ :=
  if garch28 > rv28 * (6/5) then s + 1/2 else s

/-- Vol sub-score of `calculate_scores`: the four mutation blocks applied
in program order, clamped to [0, 10]. -/
def volScore (vov_zscore ivp_1yr : ℚ) (m : VixMomentum) (garch28 rv28 : ℚ) : ℚ :=
  max 0 (min 10 (volStageGarch garch28 rv28
    (volStageMomentum m (volStageIvp ivp_1yr m (volStageVov vov_zscore)))))

/-- Sum of the four returned dynamic weights. -/
def weightsSum (w : DynamicWeights) : ℚ :=
  w.vol_weight + w.struct_weight + w.edge_weight + w.risk_weight

lemma calculate_dynamic_weights_sum (vov ivp : ℚ) (m : VixMomentum)
    (g : GexRegime) (dte : ℤ) (fii : ℚ) :
    weightsSum (calculate_dynamic_weights vov ivp m g dte fii) = 1 := by
  have h : wsum (adjFii fii (adjDte dte (adjGex g
      (adjMomentum m (baseWeights vov ivp))))) = 1 := by
    rw [adjFii_sum, adjDte_sum, adjGex_sum, adjMomentum_sum, baseWeights_sum]
  have h2 := normalizeWeights_of_sum_one _ h
  simp only [calculate_dynamic_weights, weightsSum, h2]
  simpa [wsum] using h

end Volguard

namespace Volguard

/-- C6: for every combination of inputs to
`RegimeEngine.calculate_dynamic_weights` (any VoV z-score, IV percentile,
VIX-momentum class, GEX regime, DTE and FII net value), the four returned
weights (vol, struct, edge, risk) sum to 1 within 1e-9.  In the exact
rational embedding they sum to exactly 1: the guarded adjustments are all
transfers between weights, so the renormalization branch never fires. -/
theorem dynamic_weights_sum_one (vov ivp : ℚ) (m : VixMomentum)
    (g : GexRegime) (dte : ℤ) (fii : ℚ) :
    |weightsSum (calculate_dynamic_weights vov ivp m g dte fii) - 1|
      ≤ 1 / 1000000000 := by
  rw [calculate_dynamic_weights_sum]
  norm_num

/-- C7 counterexample: with calm VoV, an IV percentile of exactly 75 takes
the fair-IV branch, not the rich branch — the weights are the base
quadruple (0.40, 0.30, 0.20, 0.10), not the rich quadruple
(0.35, 0.35, 0.20, 0.10), and the vol sub-score (with falling VIX) is
7.5 = 5 + 1.5 + 1, not the rich-branch 8 = 5 + 1.5 + 1.5.  Likewise an IV
percentile of exactly 25 takes the fair branch, not the cheap branch
(which would score 4 = 5 + 1.5 − 2.5). -/
lemma baseWeights_calm_75 : baseWeights 0 75
    = ((2:ℚ)/5, (3:ℚ)/10, (1:ℚ)/5, (1:ℚ)/10) := by
  unfold baseWeights
  norm_num [Config.HIGH_VOL_IVP, Config.LOW_VOL_IVP, Config.VOV_CRASH_ZSCORE,
    Config.VOV_WARNING_ZSCORE, Config.WEIGHT_VOL, Config.WEIGHT_STRUCT,
    Config.WEIGHT_EDGE, Config.WEIGHT_RISK]

lemma baseWeights_calm_25 : baseWeights 0 25
    = ((2:ℚ)/5, (3:ℚ)/10, (1:ℚ)/5, (1:ℚ)/10) := by
  unfold baseWeights
  norm_num [Config.HIGH_VOL_IVP, Config.LOW_VOL_IVP, Config.VOV_CRASH_ZSCORE,
    Config.VOV_WARNING_ZSCORE, Config.WEIGHT_VOL, Config.WEIGHT_STRUCT,
    Config.WEIGHT_EDGE, Config.WEIGHT_RISK]

lemma adjChain_neutral_base : normalizeWeights (adjFii 0 (adjDte 5
    (adjGex .UNKNOWN (adjMomentum .NEUTRAL
      ((2:ℚ)/5, (3:ℚ)/10, (1:ℚ)/5, (1:ℚ)/10)))))
    = ((2:ℚ)/5, (3:ℚ)/10, (1:ℚ)/5, (1:ℚ)/10) := by
  have m1 : adjMomentum .NEUTRAL ((2:ℚ)/5, (3:ℚ)/10, (1:ℚ)/5, (1:ℚ)/10)
      = ((2:ℚ)/5, (3:ℚ)/10, (1:ℚ)/5, (1:ℚ)/10) := by simp [adjMomentum]
  have g1 : adjGex .UNKNOWN ((2:ℚ)/5, (3:ℚ)/10, (1:ℚ)/5, (1:ℚ)/10)
      = ((2:ℚ)/5, (3:ℚ)/10, (1:ℚ)/5, (1:ℚ)/10) := by simp [adjGex]
  have d1 : adjDte 5 ((2:ℚ)/5, (3:ℚ)/10, (1:ℚ)/5, (1:ℚ)/10)
      = ((2:ℚ)/5, (3:ℚ)/10, (1:ℚ)/5, (1:ℚ)/10) := by
    simp [adjDte, Config.GAMMA_DANGER_DTE]
  have f1 : adjFii 0 ((2:ℚ)/5, (3:ℚ)/10, (1:ℚ)/5, (1:ℚ)/10)
      = ((2:ℚ)/5, (3:ℚ)/10, (1:ℚ)/5, (1:ℚ)/10) := by
    simp [adjFii, Config.FII_STRONG_LONG]
  have n1 : normalizeWeights ((2:ℚ)/5, (3:ℚ)/10, (1:ℚ)/5, (1:ℚ)/10)
      = ((2:ℚ)/5, (3:ℚ)/10, (1:ℚ)/5, (1:ℚ)/10) := by
    simp only [normalizeWeights]
    norm_num
  rw [m1, g1, d1, f1, n1]

lemma weights_calm_75 : calculate_dynamic_weights 0 75 .NEUTRAL .UNKNOWN 5 0
    = ⟨2/5, 3/10, 1/5, 1/10⟩ := by
  simp only [calculate_dynamic_weights, baseWeights_calm_75,
    adjChain_neutral_base]

lemma weights_calm_25 : calculate_dynamic_weights 0 25 .NEUTRAL .UNKNOWN 5 0
    = ⟨2/5, 3/10, 1/5, 1/10⟩ := by
  simp only [calculate_dynamic_weights, baseWeights_calm_25,
    adjChain_neutral_base]

lemma volScore_calm_75 : volScore 0 75 .FALLING 0 1 = 15/2 := by
  have h1 : volStageVov 0 = 13/2 := by
    unfold volStageVov
    norm_num [Config.VOV_CRASH_ZSCORE, Config.VOV_WARNING_ZSCORE]
  have h2 : volStageIvp 75 .FALLING (13/2) = 15/2 := by
    unfold volStageIvp
    norm_num [Config.HIGH_VOL_IVP, Config.LOW_VOL_IVP]
  have h3 : volStageMomentum .FALLING (15/2 : ℚ) = 15/2 := by
    simp [volStageMomentum]
  have h4 : volStageGarch 0 1 (15/2) = 15/2 := by
    unfold volStageGarch
    norm_num
  rw [volScore, h1, h2, h3, h4]
  norm_num

lemma volScore_calm_25 : volScore 0 25 .FALLING 0 1 = 15/2 := by
  have h1 : volStageVov 0 = 13/2 := by
    unfold volStageVov
    norm_num [Config.VOV_CRASH_ZSCORE, Config.VOV_WARNING_ZSCORE]
  have h2 : volStageIvp 25 .FALLING (13/2) = 15/2 := by
    unfold volStageIvp
    norm_num [Config.HIGH_VOL_IVP, Config.LOW_VOL_IVP]
  have h3 : volStageMomentum .FALLING (15/2 : ℚ) = 15/2 := by
    simp [volStageMomentum]
  have h4 : volStageGarch 0 1 (15/2) = 15/2 := by
    unfold volStageGarch
    norm_num
  rw [volScore, h1, h2, h3, h4]
  norm_num

/-- C7 counterexample: with calm VoV, an IV percentile of exactly 75 takes
the fair-IV branch, not the rich branch — the weights are the base
quadruple (0.40, 0.30, 0.20, 0.10), not the rich quadruple
(0.35, 0.35, 0.20, 0.10), and the vol sub-score (with falling VIX) is
7.5 = 5 + 1.5 + 1, not the rich-branch 8 = 5 + 1.5 + 1.5.  Likewise an IV
percentile of exactly 25 takes the fair branch, not the cheap branch
(which would score 4 = 5 + 1.5 − 2.5). -/
theorem ivp_boundary_counterexample :
    calculate_dynamic_weights 0 75 .NEUTRAL .UNKNOWN 5 0
        = ⟨2/5, 3/10, 1/5, 1/10⟩ ∧
    calculate_dynamic_weights 0 75 .NEUTRAL .UNKNOWN 5 0
        ≠ ⟨7/20, 7/20, 1/5, 1/10⟩ ∧
    volScore 0 75 .FALLING 0 1 = 15/2 ∧ (15/2 : ℚ) ≠ 8 ∧
    calculate_dynamic_weights 0 25 .NEUTRAL .UNKNOWN 5 0
        = ⟨2/5, 3/10, 1/5, 1/10⟩ ∧
    volScore 0 25 .FALLING 0 1 = 15/2 ∧ (15/2 : ℚ) ≠ 4 := by
  refine ⟨weights_calm_75, ?_, volScore_calm_75, by norm_num,
    weights_calm_25, volScore_calm_25, by norm_num⟩
  rw [weights_calm_75]
  intro h
  have hv := congrArg DynamicWeights.vol_weight h
  norm_num at hv

lemma baseWeights_boundary (vov : ℚ) :
    baseWeights vov 75 = baseWeights vov 50
      ∧ baseWeights vov 25 = baseWeights vov 50 := by
  unfold baseWeights
  norm_num [Config.HIGH_VOL_IVP, Config.LOW_VOL_IVP]

/-- C7 amended: the IVP thresholds are open at 75 and 25, not closed.  An
IV percentile of exactly 75 (and exactly 25) is classified exactly like a
mid-range fair-IV percentile such as 50, both in the vol sub-score and in
the dynamic-weight rules; the rich branch requires IVP > 75 and the cheap
branch IVP < 25 strictly. -/
theorem ivp_boundary_open (vov : ℚ) (m : VixMomentum) (g : GexRegime)
    (dte : ℤ) (fii garch rv : ℚ) :
    calculate_dynamic_weights vov 75 m g dte fii
        = calculate_dynamic_weights vov 50 m g dte fii ∧
    calculate_dynamic_weights vov 25 m g dte fii
        = calculate_dynamic_weights vov 50 m g dte fii ∧
    volScore vov 75 m garch rv = volScore vov 50 m garch rv ∧
    volScore vov 25 m garch rv = volScore vov 50 m garch rv := by
  obtain ⟨h75, h25⟩ := baseWeights_boundary vov
  have hivp : ∀ s : ℚ, volStageIvp 75 m s = volStageIvp 50 m s
      ∧ volStageIvp 25 m s = volStageIvp 50 m s := by
    intro s
    unfold volStageIvp
    norm_num [Config.HIGH_VOL_IVP, Config.LOW_VOL_IVP]
  refine ⟨?_, ?_, ?_, ?_⟩
  · simp only [calculate_dynamic_weights, h75]
  · simp only [calculate_dynamic_weights, h25]
  · simp only [volScore, (hivp _).1]
  · simp only [volScore, (hivp _).2]

/-! ## Execution engine (src/core/execution.py, class ExecutionEngine)

Broker I/O is modelled as explicit environment data: order placement as a
boolean, the status-poll loop as the finite list of responses received
within the `ORDER_TIMEOUT` window (`none` = a poll that returned nothing),
and the post-cancel status check as one more optional response. -/

inductive Side
  | BUY | SELL
deriving DecidableEq, Repr

/-- Leg roles of the ExecutionEngine pipeline (strings HEDGE / CORE). -/
inductive Role
  | HEDGE | CORE
deriving DecidableEq, Repr

structure Leg where
  key : ℕ
  qty : ℕ
  side : Side
  role : Role
  strike : ℚ
  ltp : ℚ
deriving DecidableEq, Repr

/-- Broker order statuses the polling loop distinguishes; every status
other than complete / rejected / cancelled keeps the loop polling. -/
inductive BrokerStatus
  | complete | rejected | cancelled | pending
deriving DecidableEq, Repr

structure OrderStatus where
  status : BrokerStatus
  avg_price : ℚ
  filled_qty : ℕ
deriving DecidableEq, Repr

/-- Fill threshold chosen in `_execute_leg_atomic`:
`HEDGE_FILL_TOLERANCE` for hedges, `PARTIAL_FILL_TOLERANCE` otherwise. -/
def fillThreshold (r : Role) : ℚ :=
  if r = Role.HEDGE then Config.HEDGE_FILL_TOLERANCE
  else Config.PARTIAL_FILL_TOLERANCE

/-- `slippage = abs(actual - expected) / expected if expected > 0 else 0`. -/
def slippageOf (expected actual : ℚ) : ℚ :=
  if expected > 0 then |actual - expected| / expected else 0

/-- Outcome of one `_execute_leg_atomic` call.  `filledPoll` is a fill
accepted inside the polling loop; `filledAfterCancel` is the
timeout-cancel path where a final status check reveals Complete;
`partialRejected` is a Complete below the role threshold (residual
cancelled, leg fails). -/
inductive LegOutcome
  | filledPoll (filled : ℕ) (avg : ℚ) (slip : ℚ)
  | filledAfterCancel (filled : ℕ) (avg : ℚ)
  | partialRejected (filled : ℕ)
  | dead
  | failedTimeout
  | placeFailed
deriving DecidableEq, Repr

/-- The status-poll loop of `_execute_leg_atomic`.  Exhausting the poll
trace models hitting `ORDER_TIMEOUT`: the order is cancelled and the
post-cancel status decides between acceptance and failure. -/
def pollLoop (leg : Leg) (finalStatus : Option OrderStatus) :
    List (Option OrderStatus) → LegOutcome
  | [] =>
    match finalStatus with
    | some st =>
        if st.status = BrokerStatus.complete then
          LegOutcome.filledAfterCancel st.filled_qty st.avg_price
        else LegOutcome.failedTimeout
    | none => LegOutcome.failedTimeout
  | none :: rest => pollLoop leg finalStatus rest
  | some st :: rest =>
    match st.status with
    | .complete =>
        if (st.filled_qty : ℚ) < (leg.qty : ℚ) * fillThreshold leg.role then
          LegOutcome.partialRejected st.filled_qty
        else
          LegOutcome.filledPoll st.filled_qty st.avg_price
            (slippageOf leg.ltp st.avg_price)
    | .rejected => LegOutcome.dead
    | .cancelled => LegOutcome.dead
    | .pending => pollLoop leg finalStatus rest

/-- `ExecutionEngine._execute_leg_atomic`: place the limit order, then run
the polling loop. -/
def execLegAtomic (leg : Leg) (placed : Bool)
    (polls : List (Option OrderStatus)) (finalStatus : Option OrderStatus) :
    LegOutcome :=
  if placed then pollLoop leg finalStatus polls else LegOutcome.placeFailed

/-- Per-leg broker environment for one execution attempt. -/
structure LegEnv where
  placed : Bool
  polls : List (Option OrderStatus)
  final : Option OrderStatus
deriving DecidableEq, Repr

/-- A leg together with its recorded execution details (`entry_price`,
`filled_qty`); `fill_time` is the logical completion instant. -/
structure FilledLeg where
  leg : Leg
  filled_qty : ℕ
  entry_price : ℚ
  fill_time : ℕ
deriving DecidableEq, Repr

/-- A leg execution viewed as success/failure with fill details. -/
def runLeg (l : Leg) (e : LegEnv) : Option (ℕ × ℚ) :=
  match execLegAtomic l e.placed e.polls e.final with
  | .filledPoll f a _ => some (f, a)
  | .filledAfterCancel f a => some (f, a)
  | _ => none

/-- Outcome list of one phase of `execute_strategy`.  The phase submits
*all* its legs to a thread pool up front (one worker per leg), so every
leg's order is placed and its worker runs to completion regardless of
what happens to the other legs; entry i is leg i's outcome, listed in
completion order.  (`as_completed` yields results in an arbitrary order;
the model takes the leg/environment list in that order, which loses no
generality since every theorem quantifies over all lists.)  A missing
environment entry models a worker whose order placement fails.  `t` is
the logical completion clock. -/
def legOutcomes : List Leg → List LegEnv → ℕ → List (Option FilledLeg)
  | [], _, _ => []
  | _ :: ls, [], t => none :: legOutcomes ls [] (t + 1)
  | l :: ls, e :: es, t =>
      (match runLeg l e with
        | some (f, a) => some ⟨l, f, a, t⟩
        | none => none) :: legOutcomes ls es (t + 1)

/-- The `as_completed` collection loop of one phase: successes are
collected until the first failure is dequeued; at that point the code
flattens only the results collected so far and returns, while the `with`
block's shutdown(wait=True) lets the still-in-flight workers run to
completion — their successful fills are the third (`late`) component:
open positions the abort abandons, never handed to `_flatten_legs` and
never alerted.  Returns (collected, a failure was dequeued, late). -/
def splitAtFailure : List (Option FilledLeg) →
    List FilledLeg × Bool × List FilledLeg
  | [] => ([], false, [])
  | some fl :: rest =>
      let r := splitAtFailure rest
      (fl :: r.1, r.2.1, r.2.2)
  | none :: rest => ([], true, rest.filterMap id)

/-- `ExecutionEngine._flatten_legs`: for each already-filled leg, the
reversing market/limit attempts either close it or leave it open with a
critical manual-intervention alert.  The boolean list records, per
processed leg, whether any of its exit attempts completed.  Returns
(closed, still open); zero-fill legs are skipped. -/
def flattenLegs : List FilledLeg → List Bool → List FilledLeg × List FilledLeg
  | [], _ => ([], [])
  | l :: ls, fs =>
    if l.filled_qty = 0 then flattenLegs ls fs
    else
      match fs with
      | [] =>
          let rest := flattenLegs ls []
          (rest.1, l :: rest.2)
      | ok :: fs' =>
          let rest := flattenLegs ls fs'
          if ok then (l :: rest.1, rest.2) else (rest.1, l :: rest.2)

/-- Result of one `execute_strategy` call.  `executed` is the returned
list (empty on failure); `coresPlaced` records whether Phase 2 started;
`openAfter` is the set of legs the system still holds open after the
call returns: the open position on success, and on an abort both the
flatten failures *and* the abandoned late fills of the failing phase
(in-flight workers that filled after the failure was dequeued).  Legs
with a zero fill carry no position and are not open. -/
structure ExecResult where
  executed : List FilledLeg
  success : Bool
  coresPlaced : Bool
  openAfter : List FilledLeg
deriving DecidableEq, Repr

/-- `ExecutionEngine.execute_strategy`: preflight, hedge phase, core
phase, flatten-on-failure.  `preOk` abstracts the preflight checks
(size/max-loss/margin/brokerage/lot), which place nothing when they
fail.  On a phase failure only the results collected before the failure
was dequeued are flattened; the phase's late fills stay open,
unflattened and unalerted. -/
def execute_strategy (legs : List Leg) (preOk : Bool)
    (henvs cenvs : List LegEnv) (hflat cflat : List Bool) : ExecResult :=
  if ¬ preOk then ⟨[], false, false, []⟩ else
  let hedges := legs.filter (fun l => l.role = Role.HEDGE)
  let cores := legs.filter (fun l => l.role = Role.CORE)
  let hsp := splitAtFailure (legOutcomes hedges henvs 0)
  if ¬ (hsp.2.1 = false ∧ hsp.1.length = hedges.length) then
    ⟨[], false, false, (flattenLegs hsp.1 hflat).2
        ++ hsp.2.2.filter (fun l => 0 < l.filled_qty)⟩
  else
    let csp := splitAtFailure (legOutcomes cores cenvs hedges.length)
    if ¬ (csp.2.1 = false ∧ csp.1.length = cores.length) then
      ⟨[], false, true, (flattenLegs (hsp.1 ++ csp.1) cflat).2
          ++ csp.2.2.filter (fun l => 0 < l.filled_qty)⟩
    else
      ⟨hsp.1 ++ csp.1, true, true, hsp.1 ++ csp.1⟩

/-- A 100-contract hedge leg used in concrete execution runs. -/
def cxLegH : Leg := ⟨1, 100, Side.BUY, Role.HEDGE, 22500, 10⟩

/-- C2 counterexample: a hedge leg whose order never reports within the
polling window, and completes with only 10 of 100 contracts during the
timeout-cancel, is *accepted* by `_execute_leg_atomic` (the post-cancel
path performs no threshold check), even though 10 is far below the 98%
hedge threshold.  So an order that reaches status Complete can succeed
with a fill below the role threshold. -/
theorem leg_threshold_counterexample :
    execLegAtomic cxLegH true [] (some ⟨BrokerStatus.complete, 9, 10⟩)
        = LegOutcome.filledAfterCancel 10 9 ∧
    ((10 : ℚ) < (cxLegH.qty : ℚ) * fillThreshold cxLegH.role) := by
  constructor
  · simp [execLegAtomic, pollLoop]
  · norm_num [cxLegH, fillThreshold, Config.HEDGE_FILL_TOLERANCE]

lemma pollLoop_filledPoll (leg : Leg) (final : Option OrderStatus) :
    ∀ (polls : List (Option OrderStatus)) (f : ℕ) (a sl : ℚ),
      pollLoop leg final polls = LegOutcome.filledPoll f a sl →
      ∃ st, some st ∈ polls ∧ st.status = BrokerStatus.complete ∧
        st.filled_qty = f ∧
        ¬ ((st.filled_qty : ℚ) < (leg.qty : ℚ) * fillThreshold leg.role)
  | [], f, a, sl => by
      intro h
      rcases final with _ | st
      · exact absurd h (by simp [pollLoop])
      · simp only [pollLoop] at h
        split_ifs at h <;> simp_all
  | none :: rest, f, a, sl => by
      intro h
      simp only [pollLoop] at h
      obtain ⟨st, hmem, hrest⟩ := pollLoop_filledPoll leg final rest f a sl h
      exact ⟨st, by simp [hmem], hrest⟩
  | some st :: rest, f, a, sl => by
      intro h
      simp only [pollLoop] at h
      cases hst : st.status with
      | complete =>
          simp only [hst] at h
          by_cases hlt :
              (st.filled_qty : ℚ) < (leg.qty : ℚ) * fillThreshold leg.role
          · rw [if_pos hlt] at h
            exact absurd h (by simp)
          · rw [if_neg hlt] at h
            injection h with h1 h2 h3
            exact ⟨st, by simp, hst, h1, hlt⟩
      | rejected =>
          simp only [hst] at h
          exact absurd h (by simp)
      | cancelled =>
          simp only [hst] at h
          exact absurd h (by simp)
      | pending =>
          simp only [hst] at h
          obtain ⟨u, hmem, hu⟩ := pollLoop_filledPoll leg final rest f a sl h
          exact ⟨u, by simp [hmem], hu⟩

lemma pollLoop_skip (leg : Leg) (final : Option OrderStatus) :
    ∀ (pre : List (Option OrderStatus)) (suffix : List (Option OrderStatus)),
      (∀ o ∈ pre, ∀ u, o = some u → u.status = BrokerStatus.pending) →
      pollLoop leg final (pre ++ suffix) = pollLoop leg final suffix
  | [], suffix => by intro _; simp
  | none :: pre', suffix => by
      intro hpre
      simp only [List.cons_append, pollLoop]
      exact pollLoop_skip leg final pre' suffix (by
        intro o ho u hu
        exact hpre o (by simp [ho]) u hu)
  | some u :: pre', suffix => by
      intro hpre
      have hu : u.status = BrokerStatus.pending := hpre (some u) (by simp) u rfl
      simp only [List.cons_append, pollLoop, hu]
      exact pollLoop_skip leg final pre' suffix (by
        intro o ho v hv
        exact hpre o (by simp [ho]) v hv)

/-- C2 amended: inside the polling window the role thresholds are
enforced — a leg that succeeds through the polling loop on a Complete
order filled at least 98% (Hedge) / 95% (otherwise) of the request, and
given a broker that never reports a fill above the request, its fill never
exceeds the request; a Complete observed during polling with a fill below
the role threshold cancels the residual and fails the leg.  (The original
claim fails only on the timeout-cancel path, which accepts a late Complete
without any threshold check.) -/
theorem leg_threshold_amended :
    (∀ (leg : Leg) (polls : List (Option OrderStatus))
        (final : Option OrderStatus) (f : ℕ) (a sl : ℚ),
      (∀ o ∈ polls, ∀ u : OrderStatus, o = some u → u.filled_qty ≤ leg.qty) →
      execLegAtomic leg true polls final = LegOutcome.filledPoll f a sl →
      (leg.qty : ℚ) * fillThreshold leg.role ≤ (f : ℚ) ∧ f ≤ leg.qty) ∧
    (∀ (leg : Leg) (pre rest : List (Option OrderStatus))
        (final : Option OrderStatus) (st : OrderStatus),
      (∀ o ∈ pre, ∀ u : OrderStatus, o = some u →
        u.status = BrokerStatus.pending) →
      st.status = BrokerStatus.complete →
      ((st.filled_qty : ℚ) < (leg.qty : ℚ) * fillThreshold leg.role) →
      execLegAtomic leg true (pre ++ some st :: rest) final
        = LegOutcome.partialRejected st.filled_qty) := by
  constructor
  · intro leg polls final f a sl hsane hrun
    simp only [execLegAtomic, if_pos] at hrun
    obtain ⟨st, hmem, hcomp, hf, hnl⟩ :=
      pollLoop_filledPoll leg final polls f a sl hrun
    exact ⟨hf ▸ not_lt.mp hnl, hf ▸ hsane (some st) hmem st rfl⟩
  · intro leg pre rest final st hpre hcomp hlt
    simp only [execLegAtomic, if_pos]
    rw [pollLoop_skip leg final pre _ hpre]
    simp only [pollLoop, hcomp]
    rw [if_pos hlt]

/-- Closed witness instantiating both parts of the amended C2 theorem:
a core leg of 100 contracts filled 96/100 succeeds through the polling
loop at threshold 95, and a hedge leg of 100 contracts reported Complete
at 90/100 after one empty poll is partial-rejected at threshold 98. -/
theorem leg_threshold_amended_witness :
    ((100 : ℚ) * fillThreshold Role.CORE ≤ (96 : ℕ) ∧ (96 : ℕ) ≤ 100) ∧
    execLegAtomic cxLegH true
        ([none] ++ some ⟨BrokerStatus.complete, 9, 90⟩ :: []) none
      = LegOutcome.partialRejected 90 := by
  have hthr : fillThreshold Role.CORE = Config.PARTIAL_FILL_TOLERANCE := rfl
  have hthrH : fillThreshold Role.HEDGE = Config.HEDGE_FILL_TOLERANCE := rfl
  constructor
  · have h := leg_threshold_amended.1 ⟨3, 100, Side.SELL, Role.CORE, 22000, 200⟩
      [some ⟨BrokerStatus.complete, 199, 96⟩] none 96 199
      (slippageOf 200 199)
      (by
        intro o ho u hu
        simp only [List.mem_singleton] at ho
        subst ho
        injection hu with h2
        rw [← h2]
        norm_num)
      (by
        simp only [execLegAtomic, if_true, pollLoop]
        rw [if_neg]
        rw [hthr]
        norm_num [Config.PARTIAL_FILL_TOLERANCE])
    exact h
  · exact leg_threshold_amended.2 cxLegH [none] [] none
      ⟨BrokerStatus.complete, 9, 90⟩
      (by intro o ho u hu; simp only [List.mem_singleton] at ho; simp [ho] at hu)
      rfl
      (by
        simp only [cxLegH]
        rw [hthrH]
        norm_num [Config.HEDGE_FILL_TOLERANCE])

lemma flattenLegs_open_pos :
    ∀ (ls : List FilledLeg) (fs : List Bool),
      ∀ l ∈ (flattenLegs ls fs).2, 0 < l.filled_qty
  | [], fs => by simp [flattenLegs]
  | l :: ls, fs => by
      intro x hx
      rcases fs with _ | ⟨ok, fs'⟩ <;> simp only [flattenLegs] at hx
      · split_ifs at hx with h0
        · exact flattenLegs_open_pos ls [] x hx
        · simp only [List.mem_cons] at hx
          rcases hx with hx | hx
          · subst hx; exact Nat.pos_of_ne_zero h0
          · exact flattenLegs_open_pos ls [] x hx
      · split_ifs at hx with h0 hok
        · exact flattenLegs_open_pos ls (ok :: fs') x hx
        · exact flattenLegs_open_pos ls fs' x hx
        · simp only [List.mem_cons] at hx
          rcases hx with hx | hx
          · subst hx; exact Nat.pos_of_ne_zero h0
          · exact flattenLegs_open_pos ls fs' x hx

lemma flattenLegs_cover :
    ∀ (ls : List FilledLeg) (fs : List Bool), ∀ l ∈ ls,
      l.filled_qty = 0 ∨ l ∈ (flattenLegs ls fs).1 ∨ l ∈ (flattenLegs ls fs).2
  | [], fs => by simp
  | l :: ls, fs => by
      intro x hx
      rcases fs with _ | ⟨ok, fs'⟩ <;> simp only [flattenLegs] <;>
        rcases List.mem_cons.mp hx with hx | hx
      · subst hx
        split_ifs with h0
        · exact Or.inl h0
        · right; right; simp
      · split_ifs with h0
        · exact flattenLegs_cover ls [] x hx
        · rcases flattenLegs_cover ls [] x hx with h | h | h
          · exact Or.inl h
          · right; left; simpa using h
          · right; right; simp [h]
      · subst hx
        split_ifs with h0 hok
        · exact Or.inl h0
        · right; left; simp
        · right; right; simp
      · split_ifs with h0 hok
        · exact flattenLegs_cover ls (ok :: fs') x hx
        · rcases flattenLegs_cover ls fs' x hx with h | h | h
          · exact Or.inl h
          · right; left; simp [h]
          · right; right; simp [h]
        · rcases flattenLegs_cover ls fs' x hx with h | h | h
          · exact Or.inl h
          · right; left; simp [h]
          · right; right; simp [h]

def cxLegH2 : Leg := ⟨2, 100, Side.BUY, Role.HEDGE, 21500, 10⟩

def cxLegC1 : Leg := ⟨3, 100, Side.SELL, Role.CORE, 22000, 200⟩

def cxLegC2 : Leg := ⟨4, 100, Side.SELL, Role.CORE, 22000, 190⟩

/-- A broker environment in which the order fills completely on the first
poll at the expected price. -/
def envFill : LegEnv := ⟨true, [some ⟨BrokerStatus.complete, 10, 100⟩], none⟩

/-- A broker environment in which the order is rejected. -/
def envReject : LegEnv := ⟨true, [some ⟨BrokerStatus.rejected, 0, 0⟩], none⟩

lemma runLeg_cxLegH_envFill : runLeg cxLegH envFill = some (100, 10) := by
  simp only [runLeg, execLegAtomic, envFill, cxLegH, if_true, pollLoop]
  rw [if_neg]
  have hthr : fillThreshold Role.HEDGE = Config.HEDGE_FILL_TOLERANCE := rfl
  rw [hthr]
  norm_num [Config.HEDGE_FILL_TOLERANCE]

lemma runLeg_cxLegH2_envReject : runLeg cxLegH2 envReject = none := by
  simp [runLeg, execLegAtomic, envReject, pollLoop]

/-- The concrete failing run for C1: hedge H1 fills 100%, hedge H2 is
rejected, the single flatten attempt on H1 fails (both market tries and
all limit tries unfilled). -/
def cxRun : ExecResult :=
  execute_strategy [cxLegH, cxLegH2, cxLegC1, cxLegC2] true
    [envFill, envReject] [] [false] []

lemma cxRun_eq : cxRun = ⟨[], false, false, [⟨cxLegH, 100, 10, 0⟩]⟩ := by
  have hfilterH : [cxLegH, cxLegH2, cxLegC1, cxLegC2].filter
      (fun l => l.role = Role.HEDGE) = [cxLegH, cxLegH2] := by
    simp [cxLegH, cxLegH2, cxLegC1, cxLegC2, List.filter]
  have hfilterC : [cxLegH, cxLegH2, cxLegC1, cxLegC2].filter
      (fun l => l.role = Role.CORE) = [cxLegC1, cxLegC2] := by
    simp [cxLegH, cxLegH2, cxLegC1, cxLegC2, List.filter]
  have houts : legOutcomes [cxLegH, cxLegH2] [envFill, envReject] 0
      = [some ⟨cxLegH, 100, 10, 0⟩, none] := by
    simp [legOutcomes, runLeg_cxLegH_envFill, runLeg_cxLegH2_envReject]
  have hsplit : splitAtFailure [some ⟨cxLegH, 100, 10, 0⟩, none]
      = ([⟨cxLegH, 100, 10, 0⟩], true, []) := by
    simp [splitAtFailure]
  have hflat : flattenLegs [⟨cxLegH, 100, 10, 0⟩] [false]
      = ([], [⟨cxLegH, 100, 10, 0⟩]) := by
    simp [flattenLegs]
  simp only [cxRun, execute_strategy, hfilterH, hfilterC, houts, hsplit,
    hflat]
  norm_num

/-- C1 counterexample: after this `execute_strategy` call returns, no
Trade is open (the call failed and returned the empty list), yet leg H1
is still held open by the system — its flatten attempts all failed and
only a critical manual-intervention alert was emitted.  So "after every
return, either the Trade is persisted Open with all legs filled, or no
leg is held open" is false. -/
theorem atomic_invariant_counterexample :
    cxRun.success = false ∧ cxRun.executed = [] ∧
    cxRun.openAfter = [⟨cxLegH, 100, 10, 0⟩] ∧ cxRun.openAfter ≠ [] := by
  rw [cxRun_eq]
  refine ⟨rfl, rfl, rfl, by simp⟩

lemma open_pos_of_flatten_or_late (fl : List FilledLeg) (fs : List Bool)
    (late : List FilledLeg) :
    ∀ l ∈ (flattenLegs fl fs).2
        ++ late.filter (fun x => 0 < x.filled_qty), 0 < l.filled_qty := by
  intro l hl
  rcases List.mem_append.mp hl with h | h
  · exact flattenLegs_open_pos fl fs l h
  · simpa using (List.mem_filter.mp h).2

/-- C1 amended: after any `execute_strategy` return — on success, the
returned legs are exactly the held-open position, one per hedge and per
core; on failure, nothing is returned and any leg the system still holds
open has a positive fill (it is either a flatten failure of the results
collected before the failure, or an abandoned in-flight fill of the
aborted phase, which is never flattened or alerted); Phase 2 (cores)
only ever starts after preflight passed, no hedge failure was dequeued
and every hedge leg's result was collected; and the flatten routine
processes every filled leg it is given, either closing it or leaving it
in the still-open (manual-intervention) set.  The original "no leg is
held open after a failed return" fails both through best-effort
flattening and through late fills the abort abandons. -/
theorem atomic_invariant_amended (legs : List Leg) (preOk : Bool)
    (henvs cenvs : List LegEnv) (hflat cflat : List Bool) (r : ExecResult)
    (hr : r = execute_strategy legs preOk henvs cenvs hflat cflat) :
    (r.success = true → r.openAfter = r.executed ∧
      r.executed.length
        = (legs.filter (fun l => l.role = Role.HEDGE)).length
          + (legs.filter (fun l => l.role = Role.CORE)).length) ∧
    (r.success = false → r.executed = [] ∧
      ∀ l ∈ r.openAfter, 0 < l.filled_qty) ∧
    (r.coresPlaced = true → preOk = true ∧
      (splitAtFailure (legOutcomes
        (legs.filter (fun l => l.role = Role.HEDGE)) henvs 0)).2.1 = false ∧
      (splitAtFailure (legOutcomes
          (legs.filter (fun l => l.role = Role.HEDGE)) henvs 0)).1.length
        = (legs.filter (fun l => l.role = Role.HEDGE)).length) ∧
    (∀ (ls : List FilledLeg) (fs : List Bool), ∀ l ∈ ls,
      l.filled_qty = 0 ∨ l ∈ (flattenLegs ls fs).1
        ∨ l ∈ (flattenLegs ls fs).2) := by
  subst hr
  by_cases hpre : preOk = true
  · subst hpre
    simp only [execute_strategy, not_true, if_false]
    by_cases hg1 : (splitAtFailure (legOutcomes
          (legs.filter (fun l => l.role = Role.HEDGE)) henvs 0)).2.1 = false
        ∧ (splitAtFailure (legOutcomes
            (legs.filter (fun l => l.role = Role.HEDGE)) henvs 0)).1.length
          = (legs.filter (fun l => l.role = Role.HEDGE)).length
    · rw [if_neg (by simpa using hg1)]
      by_cases hg2 : (splitAtFailure (legOutcomes
            (legs.filter (fun l => l.role = Role.CORE)) cenvs
            (legs.filter (fun l => l.role = Role.HEDGE)).length)).2.1 = false
          ∧ (splitAtFailure (legOutcomes
              (legs.filter (fun l => l.role = Role.CORE)) cenvs
              (legs.filter (fun l => l.role = Role.HEDGE)).length)).1.length
            = (legs.filter (fun l => l.role = Role.CORE)).length
      · rw [if_neg (by simpa using hg2)]
        refine ⟨fun _ => ⟨rfl, ?_⟩, by simp, fun _ => ⟨trivial, hg1.1, hg1.2⟩,
          flattenLegs_cover⟩
        simp [hg1.2, hg2.2]
      · rw [if_pos (by simpa using hg2)]
        refine ⟨by simp, fun _ => ⟨rfl, open_pos_of_flatten_or_late _ _ _⟩,
          fun _ => ⟨trivial, hg1.1, hg1.2⟩, flattenLegs_cover⟩
    · rw [if_pos (by simpa using hg1)]
      refine ⟨by simp, fun _ => ⟨rfl, open_pos_of_flatten_or_late _ _ _⟩,
        by simp, flattenLegs_cover⟩
  · simp only [Bool.not_eq_true] at hpre
    subst hpre
    simp only [execute_strategy, Bool.false_eq_true, not_false_iff, if_true]
    exact ⟨by simp, by simp, by simp, flattenLegs_cover⟩

/-- The abandoned-late-fill run: hedge H1's rejection is dequeued first,
hedge H2's worker is still in flight and fills afterwards; H2 is left
open without ever being handed to the flatten routine. -/
def cxLateRun : ExecResult :=
  execute_strategy [cxLegH, cxLegH2, cxLegC1, cxLegC2] true
    [envReject, envFill] [] [] []

lemma cxLateRun_eq :
    cxLateRun = ⟨[], false, false, [⟨cxLegH2, 100, 10, 1⟩]⟩ := by
  have hfilterH : [cxLegH, cxLegH2, cxLegC1, cxLegC2].filter
      (fun l => l.role = Role.HEDGE) = [cxLegH, cxLegH2] := by
    simp [cxLegH, cxLegH2, cxLegC1, cxLegC2, List.filter]
  have hfilterC : [cxLegH, cxLegH2, cxLegC1, cxLegC2].filter
      (fun l => l.role = Role.CORE) = [cxLegC1, cxLegC2] := by
    simp [cxLegH, cxLegH2, cxLegC1, cxLegC2, List.filter]
  have hH1 : runLeg cxLegH envReject = none := by
    simp [runLeg, execLegAtomic, envReject, pollLoop]
  have hH2 : runLeg cxLegH2 envFill = some (100, 10) := by
    simp only [runLeg, execLegAtomic, envFill, cxLegH2, if_true, pollLoop]
    rw [if_neg]
    have hthr : fillThreshold Role.HEDGE = Config.HEDGE_FILL_TOLERANCE := rfl
    rw [hthr]
    norm_num [Config.HEDGE_FILL_TOLERANCE]
  have houts : legOutcomes [cxLegH, cxLegH2] [envReject, envFill] 0
      = [none, some ⟨cxLegH2, 100, 10, 1⟩] := by
    simp [legOutcomes, hH1, hH2]
  have hsplit : splitAtFailure [none, some ⟨cxLegH2, 100, 10, 1⟩]
      = ([], true, [⟨cxLegH2, 100, 10, 1⟩]) := by
    simp [splitAtFailure]
  simp only [cxLateRun, execute_strategy, hfilterH, hfilterC, houts, hsplit]
  norm_num [flattenLegs]

/-- Closed witness for the amended C1 theorem: instantiated on the
flatten-failure run and on the abandoned-late-fill run, where the failure
conjuncts apply. -/
theorem atomic_invariant_amended_witness :
    (cxRun.executed = [] ∧ ∀ l ∈ cxRun.openAfter, 0 < l.filled_qty) ∧
    (cxLateRun.executed = [] ∧
      ∀ l ∈ cxLateRun.openAfter, 0 < l.filled_qty) := by
  have h := atomic_invariant_amended [cxLegH, cxLegH2, cxLegC1, cxLegC2]
    true [envFill, envReject] [] [false] [] cxRun rfl
  have h2 := atomic_invariant_amended [cxLegH, cxLegH2, cxLegC1, cxLegC2]
    true [envReject, envFill] [] [] [] cxLateRun rfl
  exact ⟨h.2.1 (by rw [cxRun_eq]), h2.2.1 (by rw [cxLateRun_eq])⟩

/-! ## Hedges-first ordering

`ExecutionEngine.execute_strategy` waits for the whole hedge-phase pool
before any core order is placed; the logical clock of `legOutcomes`
makes that visible.  `OrderOrchestrator.execute_strategy`
(src/core/order_orchestrator.py) instead executes its legs sequentially
in the order of the given list, with no partition by role, and
`StrategyBuilder.build_iron_fly` (src/core/strategy_builder.py) appends
the two Sell core legs before the two Buy wing legs. -/

lemma legOutcomes_mem :
    ∀ (legs : List Leg) (envs : List LegEnv) (t : ℕ) (fl : FilledLeg),
      some fl ∈ legOutcomes legs envs t →
      fl.leg ∈ legs ∧ t ≤ fl.fill_time ∧ fl.fill_time < t + legs.length
  | [], envs, t => by simp [legOutcomes]
  | l :: ls, [], t => by
      intro fl hfl
      simp only [legOutcomes, List.mem_cons] at hfl
      rcases hfl with h | h
      · exact absurd h (by simp)
      · obtain ⟨hmem, hle, hlt⟩ := legOutcomes_mem ls [] (t + 1) fl h
        refine ⟨by simp [hmem], by omega, ?_⟩
        simp only [List.length_cons]
        omega
  | l :: ls, e :: es, t => by
      intro fl hfl
      simp only [legOutcomes, List.mem_cons] at hfl
      rcases hfl with h | h
      · rcases hrl : runLeg l e with _ | ⟨f, a⟩ <;> simp only [hrl] at h
        · exact absurd h (by simp)
        · injection h with h
          subst h
          refine ⟨by simp, le_refl t, ?_⟩
          simp only [List.length_cons]
          omega
      · obtain ⟨hmem, hle, hlt⟩ := legOutcomes_mem ls es (t + 1) fl h
        refine ⟨by simp [hmem], by omega, ?_⟩
        simp only [List.length_cons]
        omega

lemma splitAtFailure_sub :
    ∀ xs : List (Option FilledLeg),
      (∀ fl ∈ (splitAtFailure xs).1, some fl ∈ xs) ∧
      (∀ fl ∈ (splitAtFailure xs).2.2, some fl ∈ xs)
  | [] => by simp [splitAtFailure]
  | some fl :: rest => by
      obtain ⟨h1, h2⟩ := splitAtFailure_sub rest
      constructor
      · intro x hx
        simp only [splitAtFailure, List.mem_cons] at hx ⊢
        rcases hx with hx | hx
        · exact Or.inl (by rw [hx])
        · exact Or.inr (h1 x hx)
      · intro x hx
        simp only [splitAtFailure] at hx
        exact List.mem_cons_of_mem _ (h2 x hx)
  | none :: rest => by
      constructor
      · intro x hx
        simp [splitAtFailure] at hx
      · intro x hx
        simp only [splitAtFailure] at hx
        obtain ⟨o, ho, hxo⟩ := List.mem_filterMap.mp hx
        simp only [id] at hxo
        subst hxo
        exact List.mem_cons_of_mem _ ho

/-- Legs of the OrderOrchestrator pipeline, as built by the strategy
builder (role strings SHORT_CALL / SHORT_PUT / LONG_CALL_WING /
LONG_PUT_WING). -/
inductive OptType
  | CE | PE
deriving DecidableEq, Repr

inductive ORole
  | SHORT_CALL | SHORT_PUT | LONG_CALL_WING | LONG_PUT_WING
deriving DecidableEq, Repr

structure OLeg where
  instrument_key : ℕ
  side : Side
  option_type : OptType
  strike : ℚ
  quantity : ℕ
  ltp : ℚ
  role : ORole
deriving DecidableEq, Repr

/-- `OrderOrchestrator._execute_leg`'s polling loop: exhausting the trace
is the timeout (cancel, fail); a Complete order fails only when the fill
ratio is below `PARTIAL_FILL_TOLERANCE` *and* the leg is a BUY below
`HEDGE_FILL_TOLERANCE`; Rejected/Cancelled fail. -/
def orchPollLoop (leg : OLeg) : List (Option OrderStatus) → Option (ℕ × ℚ)
  | [] => none
  | none :: rest => orchPollLoop leg rest
  | some st :: rest =>
    match st.status with
    | .complete =>
        let ratio : ℚ :=
          if leg.quantity > 0 then (st.filled_qty : ℚ) / leg.quantity else 0
        if ratio < Config.PARTIAL_FILL_TOLERANCE then
          if leg.side = Side.BUY ∧ ratio < Config.HEDGE_FILL_TOLERANCE then
            none
          else some (st.filled_qty, st.avg_price)
        else some (st.filled_qty, st.avg_price)
    | .rejected => none
    | .cancelled => none
    | .pending => orchPollLoop leg rest

/-- `OrderOrchestrator._execute_leg`: place the market order, poll. -/
def orchExecuteLeg (leg : OLeg) (e : LegEnv) : Option (ℕ × ℚ) :=
  if e.placed then orchPollLoop leg e.polls else none

/-- A leg persisted by the orchestrator (`OrderRepository.save_leg`),
with its fill details and logical fill instant. -/
structure OLegResult where
  leg : OLeg
  filled_qty : ℕ
  entry_price : ℚ
  fill_time : ℕ
deriving DecidableEq, Repr

/-- The sequential leg loop of `OrderOrchestrator.execute_strategy`:
legs run strictly in list order, stopping at the first failure. -/
def orchRunLegs : List OLeg → List LegEnv → ℕ → List OLegResult × Bool
  | [], _, _ => ([], true)
  | _ :: _, [], _ => ([], false)
  | l :: ls, e :: es, t =>
    match orchExecuteLeg l e with
    | some (f, a) =>
        let rest := orchRunLegs ls es (t + 1)
        (⟨l, f, a, t⟩ :: rest.1, rest.2)
    | none => ([], false)

/-- `OrderOrchestrator.execute_strategy`: on any leg failure the executed
legs are rolled back and no trade is opened (`none`); on full success the
persisted leg sequence is returned. -/
def orchestrator_execute_strategy (legs : List OLeg) (envs : List LegEnv) :
    Option (List OLegResult) :=
  let r := orchRunLegs legs envs 0
  if r.2 ∧ r.1.length = legs.length then some r.1 else none

/-- `StrategyBuilder.build_iron_fly` leg order: SELL ATM Call, SELL ATM
Put, BUY Call wing, BUY Put wing (instrument keys 1–4 stand for the four
chain contracts). -/
def build_iron_fly_legs (atm wing : ℚ) (qty : ℕ)
    (atm_call_ltp atm_put_ltp call_wing_ltp put_wing_ltp : ℚ) : List OLeg :=
  [⟨1, Side.SELL, OptType.CE, atm, qty, atm_call_ltp, ORole.SHORT_CALL⟩,
   ⟨2, Side.SELL, OptType.PE, atm, qty, atm_put_ltp, ORole.SHORT_PUT⟩,
   ⟨3, Side.BUY, OptType.CE, atm + wing, qty, call_wing_ltp,
     ORole.LONG_CALL_WING⟩,
   ⟨4, Side.BUY, OptType.PE, atm - wing, qty, put_wing_ltp,
     ORole.LONG_PUT_WING⟩]

lemma orchRunLegs_cons_some {l : OLeg} {ls : List OLeg} {e : LegEnv}
    {es : List LegEnv} {t f : ℕ} {a : ℚ}
    (hel : orchExecuteLeg l e = some (f, a)) :
    orchRunLegs (l :: ls) (e :: es) t
      = (⟨l, f, a, t⟩ :: (orchRunLegs ls es (t + 1)).1,
         (orchRunLegs ls es (t + 1)).2) := by
  simp only [orchRunLegs, hel]

lemma orchRunLegs_cons_none {l : OLeg} {ls : List OLeg} {e : LegEnv}
    {es : List LegEnv} {t : ℕ} (hel : orchExecuteLeg l e = none) :
    orchRunLegs (l :: ls) (e :: es) t = ([], false) := by
  simp only [orchRunLegs, hel]

lemma orchRunLegs_sound :
    ∀ (legs : List OLeg) (envs : List LegEnv) (t : ℕ),
      (orchRunLegs legs envs t).2 = true →
      (orchRunLegs legs envs t).1.map OLegResult.leg = legs ∧
      ∀ i (hi : i < (orchRunLegs legs envs t).1.length),
        ((orchRunLegs legs envs t).1.get ⟨i, hi⟩).fill_time = t + i
  | [], envs, t => by simp [orchRunLegs]
  | l :: ls, [], t => by simp [orchRunLegs]
  | l :: ls, e :: es, t => by
      intro hok
      rcases hel : orchExecuteLeg l e with _ | ⟨f, a⟩
      · rw [orchRunLegs_cons_none hel] at hok
        exact absurd hok (by simp)
      · rw [orchRunLegs_cons_some hel] at hok ⊢
        obtain ⟨hmap, htime⟩ := orchRunLegs_sound ls es (t + 1) hok
        refine ⟨by simp [hmap], ?_⟩
        intro i hi
        cases i with
        | zero => simp
        | succ j =>
            simp only [List.length_cons] at hi
            have := htime j (by omega)
            simp only [List.get_cons_succ]
            rw [this]
            omega

lemma execute_strategy_success_executed (legs : List Leg) (preOk : Bool)
    (henvs cenvs : List LegEnv) (hflat cflat : List Bool)
    (hsucc : (execute_strategy legs preOk henvs cenvs hflat cflat).success
      = true) :
    (execute_strategy legs preOk henvs cenvs hflat cflat).executed
      = (splitAtFailure (legOutcomes
          (legs.filter fun l => l.role = Role.HEDGE) henvs 0)).1
        ++ (splitAtFailure (legOutcomes
            (legs.filter fun l => l.role = Role.CORE) cenvs
            (legs.filter fun l => l.role = Role.HEDGE).length)).1 := by
  by_cases hpre : preOk = true
  · subst hpre
    simp only [execute_strategy, not_true, if_false] at hsucc ⊢
    by_cases hg1 : (splitAtFailure (legOutcomes
          (legs.filter (fun l => l.role = Role.HEDGE)) henvs 0)).2.1 = false
        ∧ (splitAtFailure (legOutcomes
            (legs.filter (fun l => l.role = Role.HEDGE)) henvs 0)).1.length
          = (legs.filter (fun l => l.role = Role.HEDGE)).length
    · rw [if_neg (by simpa using hg1)] at hsucc ⊢
      by_cases hg2 : (splitAtFailure (legOutcomes
            (legs.filter (fun l => l.role = Role.CORE)) cenvs
            (legs.filter (fun l => l.role = Role.HEDGE)).length)).2.1 = false
          ∧ (splitAtFailure (legOutcomes
              (legs.filter (fun l => l.role = Role.CORE)) cenvs
              (legs.filter (fun l => l.role = Role.HEDGE)).length)).1.length
            = (legs.filter (fun l => l.role = Role.CORE)).length
      · rw [if_neg (by simpa using hg2)]
      · rw [if_pos (by simpa using hg2)] at hsucc
        simp at hsucc
    · rw [if_pos (by simpa using hg1)] at hsucc
      simp at hsucc
  · simp only [Bool.not_eq_true] at hpre
    subst hpre
    simp only [execute_strategy, Bool.false_eq_true, not_false_iff,
      if_true] at hsucc

/-- The iron-fly leg list of the concrete orchestrator run: ATM 22000,
wing 300, 75 contracts, every premium 100. -/
def cxIronLegs : List OLeg := build_iron_fly_legs 22000 300 75 100 100 100 100

def ifSC : OLeg := ⟨1, Side.SELL, OptType.CE, 22000, 75, 100, ORole.SHORT_CALL⟩

def ifSP : OLeg := ⟨2, Side.SELL, OptType.PE, 22000, 75, 100, ORole.SHORT_PUT⟩

def ifLC : OLeg :=
  ⟨3, Side.BUY, OptType.CE, 22300, 75, 100, ORole.LONG_CALL_WING⟩

def ifLP : OLeg :=
  ⟨4, Side.BUY, OptType.PE, 21700, 75, 100, ORole.LONG_PUT_WING⟩

lemma cxIronLegs_eq : cxIronLegs = [ifSC, ifSP, ifLC, ifLP] := by
  simp only [cxIronLegs, build_iron_fly_legs, ifSC, ifSP, ifLC, ifLP]
  norm_num

/-- A broker environment that completely fills a 75-contract market order
at price 100 on the first poll. -/
def envOFill : LegEnv := ⟨true, [some ⟨BrokerStatus.complete, 100, 75⟩], none⟩

lemma orchExecuteLeg_fill (leg : OLeg) (h : leg.quantity = 75) :
    orchExecuteLeg leg envOFill = some (75, 100) := by
  simp only [orchExecuteLeg, envOFill, if_true, orchPollLoop, h]
  norm_num [Config.PARTIAL_FILL_TOLERANCE]

/-- The persisted leg sequence of the concrete orchestrator run. -/
def cxIronRes : List OLegResult :=
  [⟨ifSC, 75, 100, 0⟩, ⟨ifSP, 75, 100, 1⟩, ⟨ifLC, 75, 100, 2⟩,
   ⟨ifLP, 75, 100, 3⟩]

lemma cxIron_run : orchestrator_execute_strategy cxIronLegs
    [envOFill, envOFill, envOFill, envOFill] = some cxIronRes := by
  have h1 := orchExecuteLeg_fill ifSC rfl
  have h2 := orchExecuteLeg_fill ifSP rfl
  have h3 := orchExecuteLeg_fill ifLC rfl
  have h4 := orchExecuteLeg_fill ifLP rfl
  rw [cxIronLegs_eq]
  simp [orchestrator_execute_strategy, orchRunLegs, h1, h2, h3, h4, cxIronRes]

/-- C5 counterexample: the OrderOrchestrator path executes the iron-fly
leg list sequentially in builder order — SELL ATM call at instant 0, SELL
ATM put at 1, BUY call wing at 2, BUY put wing at 3 — so the persisted
sequence contains a hedge (bought wing) leg whose fill time is *greater*
than a core (sold) leg's fill time, refuting the hedges-first barrier on
this path. -/
theorem hedges_first_counterexample :
    orchestrator_execute_strategy cxIronLegs
        [envOFill, envOFill, envOFill, envOFill] = some cxIronRes ∧
    ¬ (∀ h ∈ cxIronRes, h.leg.side = Side.BUY →
        ∀ c ∈ cxIronRes, c.leg.side = Side.SELL →
          h.fill_time ≤ c.fill_time) := by
  refine ⟨cxIron_run, fun hall => ?_⟩
  have h := hall ⟨ifLC, 75, 100, 2⟩ (by simp [cxIronRes]) (by simp [ifLC])
    ⟨ifSC, 75, 100, 0⟩ (by simp [cxIronRes]) (by simp [ifSC])
  simp at h

/-- C5 amended: the hedges-first barrier holds on the ExecutionEngine
path — on any successful `execute_strategy` run, every HEDGE leg's fill
instant strictly precedes every CORE leg's.  On the OrderOrchestrator
path no such barrier exists: legs are executed strictly in the order of
the given list (the persisted sequence is the input list with fill
instants 0, 1, 2, …), and since `build_iron_fly` lists the SELL core legs
before the BUY wing (hedge) legs, cores there fill before hedges. -/
theorem hedges_first_amended :
    (∀ (legs : List Leg) (preOk : Bool) (henvs cenvs : List LegEnv)
        (hflat cflat : List Bool),
      (execute_strategy legs preOk henvs cenvs hflat cflat).success = true →
      ∀ h ∈ (execute_strategy legs preOk henvs cenvs hflat cflat).executed,
        h.leg.role = Role.HEDGE →
      ∀ c ∈ (execute_strategy legs preOk henvs cenvs hflat cflat).executed,
        c.leg.role = Role.CORE → h.fill_time < c.fill_time) ∧
    (∀ (legs : List OLeg) (envs : List LegEnv) (res : List OLegResult),
      orchestrator_execute_strategy legs envs = some res →
      res.map OLegResult.leg = legs ∧
      ∀ i (hi : i < res.length), (res.get ⟨i, hi⟩).fill_time = i) := by
  constructor
  · intro legs preOk henvs cenvs hflat cflat hsucc h hh hrole c hc crole
    rw [execute_strategy_success_executed legs preOk henvs cenvs hflat cflat
      hsucc] at hh hc
    have hhh : some h ∈ legOutcomes
        (legs.filter fun l => l.role = Role.HEDGE) henvs 0 := by
      rcases List.mem_append.mp hh with hmem | hmem
      · exact (splitAtFailure_sub _).1 h hmem
      · have hsome := (splitAtFailure_sub _).1 h hmem
        obtain ⟨hlegmem, _, _⟩ := legOutcomes_mem _ _ _ _ hsome
        have := (List.mem_filter.mp hlegmem).2
        simp [hrole] at this
    have hcc : some c ∈ legOutcomes
        (legs.filter fun l => l.role = Role.CORE) cenvs
        (legs.filter fun l => l.role = Role.HEDGE).length := by
      rcases List.mem_append.mp hc with hmem | hmem
      · have hsome := (splitAtFailure_sub _).1 c hmem
        obtain ⟨hlegmem, _, _⟩ := legOutcomes_mem _ _ _ _ hsome
        have := (List.mem_filter.mp hlegmem).2
        simp [crole] at this
      · exact (splitAtFailure_sub _).1 c hmem
    obtain ⟨_, _, hlt⟩ := legOutcomes_mem _ _ _ _ hhh
    obtain ⟨_, hle, _⟩ := legOutcomes_mem _ _ _ _ hcc
    omega
  · intro legs envs res hres
    simp only [orchestrator_execute_strategy] at hres
    split_ifs at hres with hok
    · injection hres with hres
      subst hres
      obtain ⟨hmap, htime⟩ := orchRunLegs_sound legs envs 0 hok.1
      refine ⟨hmap, fun i hi => ?_⟩
      rw [htime i hi]
      omega

/-- Closed witness for the amended C5 theorem: the orchestrator part
applied to the concrete iron-fly run — the persisted legs are the builder
list in order, with fill instant equal to position. -/
theorem hedges_first_amended_witness :
    cxIronRes.map OLegResult.leg = cxIronLegs ∧
    ∀ i (hi : i < cxIronRes.length),
      (cxIronRes.get ⟨i, hi⟩).fill_time = i := by
  exact hedges_first_amended.2 cxIronLegs
    [envOFill, envOFill, envOFill, envOFill] cxIronRes cxIron_run

/-! ## Pre-trade risk validation (src/core/risk_manager.py, RiskManager)

Each `_check_*` helper returns `(ok, message)`; we keep the `ok` boolean
and identify each violation message by a tag.  A `none` input to a
fallible check models the corresponding repository / API call raising an
exception inside the check's `try` block. -/

inductive Violation
  | circuitBreaker | capital | margin | concentration | dailyLimit
  | drawdown | market | veto | maxCapital
deriving DecidableEq, Repr

structure RLeg where
  quantity : ℕ
  ltp : ℚ
  side : Side
deriving DecidableEq, Repr

structure RiskInputs where
  circuit_breaker_active : Bool
  deployment_amount : ℚ
  open_deployed : List ℚ
  legs : List RLeg
  today_trades : Option ℕ
  peak_current : Option (ℚ × ℚ)
  market : Option (ℕ × ℕ × Bool)
  veto : Option (Bool × Bool)
deriving DecidableEq, Repr

/-- `RiskManager._check_capital_allocation`. -/
def check_capital_allocation (inp : RiskInputs) : Bool :=
  let max_allowed := Config.BASE_CAPITAL * Config.MAX_CAPITAL_USAGE
  let total_deployed := inp.open_deployed.sum + inp.deployment_amount
  if total_deployed > max_allowed then false else true

/-- `RiskManager._check_margin_requirements` (the arithmetic body; its
`except` branch fails closed and is unreachable in this pure model). -/
def check_margin_requirements (legs : List RLeg) : Bool :=
  let required := (legs.map (fun l =>
    if l.side = Side.SELL then Config.MARGIN_SELL_BASE * l.quantity
    else l.ltp * l.quantity * 25)).sum
  let available := Config.BASE_CAPITAL * Config.MAX_CAPITAL_USAGE
  if required > available * (9/10) then false else true

/-- `RiskManager._check_position_concentration`. -/
def check_position_concentration (legs : List RLeg) : Bool :=
  if (legs.map RLeg.quantity).sum > Config.MAX_CONTRACTS_PER_INSTRUMENT
  then false else true

/-- `RiskManager._check_daily_trade_limit`: on an internal exception
(`none`) it reports OK ("Don't block on error"). -/
def check_daily_trade_limit (today : Option ℕ) : Bool :=
  match today with
  | none => true
  | some n => if n ≥ Config.MAX_TRADES_PER_DAY then false else true

/-- `RiskManager._check_drawdown_limit`: on an internal exception it
reports OK.  (On a breach the code also activates the circuit breaker,
which affects later calls, not the current violation list.) -/
def check_drawdown_limit (pc : Option (ℚ × ℚ)) : Bool :=
  match pc with
  | none => true
  | some (peak, cur) =>
      if peak ≤ 0 then true
      else if (peak - cur) / peak > Config.MAX_DRAWDOWN_PCT then false
      else true

/-- `RiskManager._check_market_conditions`: market-hours window
9:00–15:30 by the hour/minute test in the code, spot price must be
fetchable; on an internal exception it reports OK. -/
def check_market_conditions (mk : Option (ℕ × ℕ × Bool)) : Bool :=
  match mk with
  | none => true
  | some (h, m, spot) =>
      let market_open := 9 ≤ h ∧ (h < 15 ∨ (h = 15 ∧ m ≤ 30))
      if ¬ market_open then false
      else if ¬ spot then false
      else true

/-- `RiskManager._check_veto_events`: fails only when a veto event is
present *and* square-off is needed; on an internal exception it reports
OK. -/
def check_veto_events (v : Option (Bool × Bool)) : Bool :=
  match v with
  | none => true
  | some (hv, so) => if hv ∧ so then false else true

/-- `RiskManager._check_max_capital_per_trade`. -/
def check_max_capital_per_trade (dep : ℚ) : Bool :=
  if dep > Config.MAX_CAPITAL_PER_TRADE then false else true

/-- `CircuitBreaker.check_daily_trade_limit` (src/core/risk.py): allows
trading on a database error ("fail-open"). -/
def cb_check_daily_trade_limit (today : Option ℕ) : Bool :=
  match today with
  | none => true
  | some n => if n ≥ Config.MAX_TRADES_PER_DAY then false else true

/-- `RiskManager.validate_trade`: an active circuit breaker returns
immediately with that single violation; otherwise checks 2–9 run in
order, appending one violation each on failure. -/
def validate_trade (inp : RiskInputs) : Bool × List Violation :=
  if inp.circuit_breaker_active then (false, [Violation.circuitBreaker])
  else
    let vs :=
      (if check_capital_allocation inp then [] else [Violation.capital]) ++
      (if check_margin_requirements inp.legs then []
        else [Violation.margin]) ++
      (if check_position_concentration inp.legs then []
        else [Violation.concentration]) ++
      (if check_daily_trade_limit inp.today_trades then []
        else [Violation.dailyLimit]) ++
      (if check_drawdown_limit inp.peak_current then []
        else [Violation.drawdown]) ++
      (if check_market_conditions inp.market then []
        else [Violation.market]) ++
      (if check_veto_events inp.veto then [] else [Violation.veto]) ++
      (if check_max_capital_per_trade inp.deployment_amount then []
        else [Violation.maxCapital])
    (vs.isEmpty, vs)

lemma mem_ite_nil (b : Bool) (v w : Violation) :
    (v ∈ if b then ([] : List Violation) else [w]) ↔ b = false ∧ v = w := by
  cases b <;> simp

/-- An input on which the circuit breaker is active *and* the
max-capital-per-trade check would also fail. -/
def cxRiskInp : RiskInputs :=
  ⟨true, 1000000000, [], [], some 0, none, none, none⟩

/-- C3 counterexample: with the circuit breaker active,
`validate_trade` returns immediately with only the circuit-breaker
violation, even though the max-capital check (₹10⁹ > ₹300,000) would
also fail — the caller does not receive the complete violation list and
checks 2–9 are skipped. -/
theorem risk_checks_counterexample :
    validate_trade cxRiskInp = (false, [Violation.circuitBreaker]) ∧
    check_max_capital_per_trade cxRiskInp.deployment_amount = false ∧
    Violation.maxCapital ∉ (validate_trade cxRiskInp).2 := by
  refine ⟨by simp [validate_trade, cxRiskInp], ?_, ?_⟩
  · simp only [check_max_capital_per_trade, cxRiskInp]
    norm_num [Config.MAX_CAPITAL_PER_TRADE]
  · simp [validate_trade, cxRiskInp]

/-- C3 amended: when the circuit breaker is active, `validate_trade`
short-circuits and returns only that single violation (checks 2–9 do not
run); when it is inactive, all eight remaining checks run and the
returned list contains exactly the violations of the checks that failed
(and validity is equivalent to the list being empty). -/
theorem risk_checks_amended (inp : RiskInputs) :
    (inp.circuit_breaker_active = true →
      validate_trade inp = (false, [Violation.circuitBreaker])) ∧
    (inp.circuit_breaker_active = false →
      ((validate_trade inp).1 = true ↔ (validate_trade inp).2 = []) ∧
      Violation.circuitBreaker ∉ (validate_trade inp).2 ∧
      (Violation.capital ∈ (validate_trade inp).2
        ↔ check_capital_allocation inp = false) ∧
      (Violation.margin ∈ (validate_trade inp).2
        ↔ check_margin_requirements inp.legs = false) ∧
      (Violation.concentration ∈ (validate_trade inp).2
        ↔ check_position_concentration inp.legs = false) ∧
      (Violation.dailyLimit ∈ (validate_trade inp).2
        ↔ check_daily_trade_limit inp.today_trades = false) ∧
      (Violation.drawdown ∈ (validate_trade inp).2
        ↔ check_drawdown_limit inp.peak_current = false) ∧
      (Violation.market ∈ (validate_trade inp).2
        ↔ check_market_conditions inp.market = false) ∧
      (Violation.veto ∈ (validate_trade inp).2
        ↔ check_veto_events inp.veto = false) ∧
      (Violation.maxCapital ∈ (validate_trade inp).2
        ↔ check_max_capital_per_trade inp.deployment_amount = false)) := by
  constructor
  · intro hb
    simp [validate_trade, hb]
  · intro hb
    simp only [validate_trade, hb, Bool.false_eq_true, if_false]
    refine ⟨by simp [List.isEmpty_iff], ?_, ?_, ?_, ?_, ?_, ?_, ?_, ?_, ?_⟩
      <;> simp [mem_ite_nil, List.mem_append]

/-- Closed witness for the amended C3 theorem, applied at a concrete
breaker-active input and a concrete breaker-inactive input. -/
theorem risk_checks_amended_witness :
    validate_trade cxRiskInp = (false, [Violation.circuitBreaker]) ∧
    ((validate_trade ⟨false, 0, [], [], some 0, none, none, none⟩).1 = true
      ↔ (validate_trade ⟨false, 0, [], [], some 0, none, none, none⟩).2
          = []) := by
  exact ⟨(risk_checks_amended cxRiskInp).1 rfl,
    ((risk_checks_amended ⟨false, 0, [], [], some 0, none, none, none⟩).2
      rfl).1⟩

/-- An input whose daily-trade-limit, drawdown, market-conditions and
veto checks all raise internally (`none`) while everything else passes. -/
def cxErrInp : RiskInputs := ⟨false, 0, [], [], none, none, none, none⟩

/-- C10: the daily-trade-limit, drawdown, market-conditions and
veto-event checks fail open — on an internal exception each reports OK —
and so does `CircuitBreaker.check_daily_trade_limit`; consequently
`validate_trade` on an input where all four checks error declares the
trade valid with no violations, though none of those limits was
verified. -/
theorem risk_checks_fail_open :
    check_daily_trade_limit none = true ∧
    check_drawdown_limit none = true ∧
    check_market_conditions none = true ∧
    check_veto_events none = true ∧
    cb_check_daily_trade_limit none = true ∧
    validate_trade cxErrInp = (true, []) := by
  refine ⟨rfl, rfl, rfl, rfl, rfl, ?_⟩
  have hcap : check_capital_allocation cxErrInp = true := by
    simp only [check_capital_allocation, cxErrInp]
    norm_num [Config.BASE_CAPITAL, Config.MAX_CAPITAL_USAGE]
  have hmar : check_margin_requirements cxErrInp.legs = true := by
    simp only [check_margin_requirements, cxErrInp]
    norm_num [Config.BASE_CAPITAL, Config.MAX_CAPITAL_USAGE]
  have hcon : check_position_concentration cxErrInp.legs = true := by
    simp only [check_position_concentration, cxErrInp]
    norm_num [Config.MAX_CONTRACTS_PER_INSTRUMENT]
  have hmax : check_max_capital_per_trade cxErrInp.deployment_amount
      = true := by
    simp only [check_max_capital_per_trade, cxErrInp]
    norm_num [Config.MAX_CAPITAL_PER_TRADE]
  simp [validate_trade, cxErrInp, check_daily_trade_limit,
    check_drawdown_limit, check_market_conditions, check_veto_events]
  exact ⟨by simpa [cxErrInp] using hcap, by simpa [cxErrInp] using hmar,
    by simpa [cxErrInp] using hcon, by simpa [cxErrInp] using hmax⟩

/-! ## Circuit breaker (src/core/risk.py, class CircuitBreaker)

The persisted `system_state` keys written by the class are
`consecutive_losses` and `peak_capital` (via `_save_consecutive_losses` /
`_save_peak_capital`); `trigger_breaker` mutates only the in-memory
`breaker_triggered` / `breaker_until` fields and appends a `risk_events`
log row.  `__init__` reloads the two persisted keys and always starts
with `breaker_triggered = False`, `breaker_until = None`. -/

inductive BreakerReason
  | MAX_DRAWDOWN | DAILY_LOSS_LIMIT | CONSECUTIVE_LOSSES
  | EXCESSIVE_SLIPPAGE | KILL_SWITCH
deriving DecidableEq, Repr

/-- The durable rows the CircuitBreaker writes: the two `system_state`
keys plus the append-only `risk_events` log. -/
structure SystemStateStore where
  consecutive_losses : ℕ
  peak_capital : ℚ
  risk_events : List BreakerReason
deriving DecidableEq, Repr

structure CBState where
  store : SystemStateStore
  consecutive_losses : ℕ
  peak_capital : ℚ
  breaker_triggered : Bool
  breaker_until : Option ℕ
  current_capital : ℚ
deriving DecidableEq, Repr

/-- `CircuitBreaker.__init__` on a given persisted store (a process
restart): loads the two persisted keys, runtime trip state starts
cleared. -/
def initCB (st : SystemStateStore) : CBState :=
  ⟨st, st.consecutive_losses, st.peak_capital, false, none,
    Config.BASE_CAPITAL⟩

/-- `CircuitBreaker._save_consecutive_losses`. -/
def save_consecutive_losses (s : CBState) : CBState :=
  { s with store :=
      { s.store with consecutive_losses := s.consecutive_losses } }

/-- `CircuitBreaker._save_peak_capital`. -/
def save_peak_capital (s : CBState) : CBState :=
  { s with store := { s.store with peak_capital := s.peak_capital } }

/-- `CircuitBreaker.trigger_breaker`: sets the in-memory trip flag and
cooldown deadline, and logs a `risk_events` row — nothing else is
persisted. -/
def trigger_breaker (now : ℕ) (reason : BreakerReason) (s : CBState) :
    CBState :=
  { s with breaker_triggered := true,
           breaker_until := some (now + Config.COOL_DOWN_PERIOD),
           store :=
             { s.store with risk_events := s.store.risk_events ++ [reason] } }

/-- `CircuitBreaker.update_capital`: track peak (persisting a new high),
then trip on drawdown ≥ limit. -/
def update_capital (now : ℕ) (new_capital : ℚ) (s : CBState) :
    CBState × Bool :=
  let s1 := { s with current_capital := new_capital }
  let s2 :=
    if new_capital > s1.peak_capital then
      save_peak_capital { s1 with peak_capital := new_capital }
    else s1
  let drawdown := (s2.peak_capital - new_capital) / s2.peak_capital
  if drawdown ≥ Config.MAX_DRAWDOWN_PCT then
    (trigger_breaker now BreakerReason.MAX_DRAWDOWN s2, false)
  else (s2, true)

/-- `CircuitBreaker.record_trade_result`: a loss increments and persists
the consecutive-loss counter (tripping at the limit); a win resets and
persists it when it was positive. -/
def record_trade_result (now : ℕ) (pnl : ℚ) (s : CBState) :
    CBState × Bool :=
  if pnl < 0 then
    let s1 := save_consecutive_losses
      { s with consecutive_losses := s.consecutive_losses + 1 }
    if s1.consecutive_losses ≥ Config.MAX_CONSECUTIVE_LOSSES then
      (trigger_breaker now BreakerReason.CONSECUTIVE_LOSSES s1, false)
    else (s1, true)
  else
    if s.consecutive_losses > 0 then
      (save_consecutive_losses { s with consecutive_losses := 0 }, true)
    else (s, true)

/-- The memory/store synchronisation the claim asserts for counters. -/
def cbSynced (s : CBState) : Prop :=
  s.store.consecutive_losses = s.consecutive_losses ∧
  s.store.peak_capital = s.peak_capital

/-- A fresh store: no losses, peak at base capital, empty event log. -/
def cxStore : SystemStateStore := ⟨0, 1000000, []⟩

/-- C4 counterexample: tripping the breaker sets the in-memory trip flag
and trip-until deadline, but a restart (re-initialising from the
persisted store) comes up with the trip cleared — the trip reason and
trip-until timestamp are not restored from the store, so an active trip
does not survive a process restart. -/
theorem breaker_persistence_counterexample :
    (trigger_breaker 1000 BreakerReason.MAX_DRAWDOWN
        (initCB cxStore)).breaker_triggered = true ∧
    (trigger_breaker 1000 BreakerReason.MAX_DRAWDOWN
        (initCB cxStore)).breaker_until
      = some (1000 + Config.COOL_DOWN_PERIOD) ∧
    (initCB (trigger_breaker 1000 BreakerReason.MAX_DRAWDOWN
        (initCB cxStore)).store).breaker_triggered = false ∧
    (initCB (trigger_breaker 1000 BreakerReason.MAX_DRAWDOWN
        (initCB cxStore)).store).breaker_until = none := by
  refine ⟨rfl, rfl, rfl, rfl⟩

/-- C4 amended: the consecutive-loss counter and the peak capital are
persisted at every change (`record_trade_result`, `update_capital`,
including through breaker trips) before the call returns, and a restart
restores exactly those two values; the trip state itself
(`breaker_triggered` / `breaker_until`) is held only in memory — a
restart always comes up untripped, whatever the store contains. -/
theorem breaker_persistence_amended :
    (∀ st : SystemStateStore, cbSynced (initCB st)) ∧
    (∀ (now : ℕ) (pnl : ℚ) (s : CBState), cbSynced s →
      cbSynced (record_trade_result now pnl s).1) ∧
    (∀ (now : ℕ) (c : ℚ) (s : CBState), cbSynced s →
      cbSynced (update_capital now c s).1) ∧
    (∀ (now : ℕ) (r : BreakerReason) (s : CBState), cbSynced s →
      cbSynced (trigger_breaker now r s)) ∧
    (∀ s : CBState, cbSynced s →
      (initCB s.store).consecutive_losses = s.consecutive_losses ∧
      (initCB s.store).peak_capital = s.peak_capital) ∧
    (∀ st : SystemStateStore, (initCB st).breaker_triggered = false ∧
      (initCB st).breaker_until = none) := by
  refine ⟨fun st => ⟨rfl, rfl⟩, ?_, ?_, ?_, ?_, fun st => ⟨rfl, rfl⟩⟩
  · intro now pnl s hs
    simp only [record_trade_result]
    split_ifs <;>
      simp_all [cbSynced, save_consecutive_losses, trigger_breaker]
  · intro now c s hs
    simp only [update_capital]
    split_ifs <;>
      simp_all [cbSynced, save_peak_capital, trigger_breaker]
  · intro now r s hs
    simp_all [cbSynced, trigger_breaker]
  · intro s hs
    exact ⟨hs.1, hs.2⟩

/-- Closed witness for the amended C4 theorem: a losing trade from the
fresh store keeps the persisted counter in sync. -/
theorem breaker_persistence_amended_witness :
    cbSynced (record_trade_result 0 (-500) (initCB cxStore)).1 := by
  exact breaker_persistence_amended.2.1 0 (-500) (initCB cxStore)
    (breaker_persistence_amended.1 cxStore)

/-! ## Exit path (src/core/order_orchestrator.py, exit_strategy)

The trade store is an association list keyed by trade id; each exit
attempt needs a live-LTP fetch result and a broker environment per leg.
The third result component counts the exit orders placed. -/

inductive TStatus
  | PENDING | OPEN | CLOSED | FAILED
deriving DecidableEq, Repr

structure TradeRec where
  status : TStatus
  legs : List OLegResult
  exit_legs : List OLegResult
  realized_pnl : ℚ
  exit_reason : Option ℕ
deriving DecidableEq, Repr

def reverseSide : Side → Side
  | Side.BUY => Side.SELL
  | Side.SELL => Side.BUY

/-- The reversing leg built inside `exit_strategy`: flipped side, the
filled quantity, the live LTP (falling back to the entry price when the
fetch fails).  The `EXIT_` role prefix only labels log lines and is not
modelled. -/
def buildExitLeg (l : OLegResult) (ltp : Option ℚ) : OLeg :=
  ⟨l.leg.instrument_key, reverseSide l.leg.side, l.leg.option_type,
   l.leg.strike, l.filled_qty,
   (match ltp with | some p => p | none => l.entry_price), l.leg.role⟩

/-- The per-leg exit loop of `exit_strategy`: a failed leg is logged and
skipped ("Continue with other legs"). -/
def runExitLegs : List OLegResult → List (Option ℚ × LegEnv) → ℕ →
    List OLegResult
  | [], _, _ => []
  | _ :: ls, [], t => runExitLegs ls [] (t + 1)
  | l :: ls, (ltp, e) :: es, t =>
    match orchExecuteLeg (buildExitLeg l ltp) e with
    | some (f, a) => ⟨buildExitLeg l ltp, f, a, t⟩ :: runExitLegs ls es (t + 1)
    | none => runExitLegs ls es (t + 1)

/-- Number of exit orders placed by the per-leg loop (one per leg whose
environment lets `_place_order` succeed). -/
def countExitOrders : List OLegResult → List (Option ℚ × LegEnv) → ℕ
  | [], _ => 0
  | _ :: ls, [] => countExitOrders ls []
  | _ :: ls, (_, e) :: es =>
      (if e.placed then 1 else 0) + countExitOrders ls es

/-- `OrderOrchestrator._calculate_realized_pnl`: match exit legs to entry
legs by instrument key, lot size 25; unmatched entry legs contribute
nothing. -/
def calc_realized_pnl (entry_legs exit_legs : List OLegResult) : ℚ :=
  (entry_legs.map (fun el =>
    match exit_legs.find? (fun xl =>
        xl.leg.instrument_key = el.leg.instrument_key) with
    | none => 0
    | some xl =>
        if el.leg.side = Side.SELL then
          (el.entry_price - xl.entry_price) * el.filled_qty * 25
        else
          (xl.entry_price - el.entry_price) * el.filled_qty * 25)).sum

/-- `OrderOrchestrator.exit_strategy`: missing trade, a trade whose
status is not OPEN, or a trade without legs return `false` untouched;
otherwise all legs are reversed, P&L realised and the trade moved to
CLOSED. -/
def exit_strategy (db : List (ℕ × TradeRec)) (tid reason : ℕ)
    (envs : List (Option ℚ × LegEnv)) :
    Bool × List (ℕ × TradeRec) × ℕ :=
  match db.find? (fun p => p.1 = tid) with
  | none => (false, db, 0)
  | some pr =>
    if pr.2.status ≠ TStatus.OPEN then (false, db, 0)
    else if pr.2.legs.isEmpty then (false, db, 0)
    else
      let exit_legs := runExitLegs pr.2.legs envs 0
      let pnl := calc_realized_pnl pr.2.legs exit_legs
      let tr' : TradeRec :=
        { pr.2 with status := TStatus.CLOSED, exit_legs := exit_legs,
                    realized_pnl := pnl, exit_reason := some reason }
      (true, db.map (fun p => if p.1 = tid then (p.1, tr') else p),
       countExitOrders pr.2.legs envs)

/-- C8: `exit_strategy` on a trade whose status is not OPEN (in
particular a CLOSED trade) is a no-op returning success = false: no exit
order is placed and the trade store is unchanged. -/
theorem exit_closed_noop (db : List (ℕ × TradeRec)) (tid reason : ℕ)
    (envs : List (Option ℚ × LegEnv)) (pr : ℕ × TradeRec)
    (hfind : db.find? (fun p => p.1 = tid) = some pr)
    (hstatus : pr.2.status ≠ TStatus.OPEN) :
    exit_strategy db tid reason envs = (false, db, 0) := by
  simp only [exit_strategy, hfind]
  rw [if_pos hstatus]

/-- A one-trade store whose only trade is CLOSED, used as the C8
witness. -/
def cxClosedDb : List (ℕ × TradeRec) :=
  [(7, ⟨TStatus.CLOSED, [⟨ifSC, 75, 100, 0⟩], [], 0, none⟩)]

/-- Closed witness for C8: exiting the CLOSED trade 7 is a no-op. -/
theorem exit_closed_noop_witness :
    exit_strategy cxClosedDb 7 1 [] = (false, cxClosedDb, 0) := by
  exact exit_closed_noop cxClosedDb 7 1 []
    (7, ⟨TStatus.CLOSED, [⟨ifSC, 75, 100, 0⟩], [], 0, none⟩)
    (by simp [cxClosedDb]) (by simp)

/-! ## Trade-id generation (src/core/order_orchestrator.py,
`_generate_trade_id`)

`"VG_" + now.strftime("%Y%m%d%H%M%S")`: the id is a pure function of the
wall clock truncated to whole seconds. -/

/-- An instant with sub-second precision. -/
structure DateTimeMs where
  year : ℕ
  month : ℕ
  day : ℕ
  hour : ℕ
  minute : ℕ
  second : ℕ
  millis : ℕ
deriving DecidableEq, Repr

/-- The instant as `strftime("%Y%m%d%H%M%S")` sees it. -/
structure DateTime6 where
  year : ℕ
  month : ℕ
  day : ℕ
  hour : ℕ
  minute : ℕ
  second : ℕ
deriving DecidableEq, Repr

def truncSec (t : DateTimeMs) : DateTime6 :=
  ⟨t.year, t.month, t.day, t.hour, t.minute, t.second⟩

/-- Two-digit zero padding of `strftime`. -/
def pad2 (n : ℕ) : String :=
  if n < 10 then "0" ++ toString n else toString n

/-- `OrderOrchestrator._generate_trade_id`. -/
def generate_trade_id (t : DateTime6) : String :=
  "VG_" ++ toString t.year ++ pad2 t.month ++ pad2 t.day ++ pad2 t.hour
    ++ pad2 t.minute ++ pad2 t.second

/-- C9: two `execute_strategy` calls at distinct instants inside the same
wall-clock second (10:00:00.100 and 10:00:00.400 on 2026-10-12) receive
the *same* generated trade id `VG_20261012100000` — the id has only
second resolution, so trade ids are not unique for executions in quick
succession, contradicting the function's own "Generate unique trade ID"
contract. -/
theorem trade_id_collision :
    (⟨2026, 10, 12, 10, 0, 0, 100⟩ : DateTimeMs)
        ≠ (⟨2026, 10, 12, 10, 0, 0, 400⟩ : DateTimeMs) ∧
    generate_trade_id (truncSec ⟨2026, 10, 12, 10, 0, 0, 100⟩)
      = generate_trade_id (truncSec ⟨2026, 10, 12, 10, 0, 0, 400⟩) ∧
    generate_trade_id (truncSec ⟨2026, 10, 12, 10, 0, 0, 100⟩)
      = "VG_20261012100000" := by
  refine ⟨?_, rfl, rfl⟩
  intro h
  have := congrArg DateTimeMs.millis h
  simp at this

end Volguard
